import Mathlib

/-!
Verification of the OwlWays pricing decision engine.

Shallow embedding of the three core functions of the repository:

* `predict_price_range` (src/tools.py) — the price-statistics summarizer;
* `decide_recommendation` (src/tools.py) — the recommendation policy;
* `predict_future_prices` (src/real_data_service.py) — the trend predictor.

Prices and budgets are modelled as exact rationals (`ℚ`), mirroring the
idealized real-number semantics of the Python/numpy reference; Python's
`int(...)` conversion is modelled as truncation toward zero.
-/

namespace OwlWays

/-- Python `int(...)` applied to a number: truncation toward zero. -/
def intTrunc (q : ℚ) : ℤ := if 0 ≤ q then ⌊q⌋ else ⌈q⌉

/-- Result record of `predict_price_range`.  The empty-history branch of the
source returns a dict without `mean`/`std` keys, hence the `Option` fields. -/
structure PriceStatistics where
  q10 : ℤ
  q50 : ℤ
  q90 : ℤ
  mean : Option ℤ
  std : Option ℤ

/-- Ascending sort of the price list, as performed internally by
`np.percentile`. -/
def sortQ (l : List ℚ) : List ℚ := l.insertionSort (· ≤ ·)

/-- Linear interpolation of a (sorted) list of values at fractional index `h`:
the value `s[⌊h⌋] + (h - ⌊h⌋) * (s[⌊h⌋+1] - s[⌊h⌋])`.  This is the kernel of
numpy's default "linear" percentile method. -/
def interpAt (s : List ℚ) (h : ℚ) : ℚ :=
  let i := (⌊h⌋).toNat
  let lo := s.getD i 0
  let hi := s.getD (i + 1) lo
  lo + (h - ⌊h⌋) * (hi - lo)

/-- The fractional rank at which numpy's linear percentile method interpolates:
`p/100 * (n-1)` for percentile `p` over `n` values. -/
def rankOf (p : ℚ) (n : ℕ) : ℚ := p / 100 * ((n : ℚ) - 1)

/-- `np.percentile(l, p)` with the default linear interpolation method. -/
def percentile (p : ℚ) (l : List ℚ) : ℚ := interpAt (sortQ l) (rankOf p l.length)

/-- `np.mean(l)`: the arithmetic mean. -/
def listMean (l : List ℚ) : ℚ := l.sum / l.length

/-- Population variance of a list (`np.std` squared, i.e. `ddof = 0`). -/
def popVar (l : List ℚ) : ℚ :=
  (l.map (fun x => (x - listMean l) ^ 2)).sum / l.length

/-- `int(np.std(l))`: the population standard deviation truncated toward zero.
For `v ≥ 0` the integer truncation of `√v` is the largest integer whose square
is at most `v`, which is `Nat.sqrt ⌊v⌋`; this avoids irrational intermediate
values while agreeing exactly with `int(sqrt(v))`. -/
def stdTrunc (l : List ℚ) : ℤ := (Nat.sqrt (⌊popVar l⌋).toNat : ℤ)

/-- `predict_price_range` from src/tools.py (lines 65-81): the empty history
gets the fixed default `{q10:200, q50:250, q90:300}` with no mean/std; a
non-empty history gets the 10/50/90 linear-interpolation percentiles, the mean
and the population standard deviation, each truncated toward zero by `int()`. -/
def predict_price_range (price_history : List ℚ) : PriceStatistics :=
  if price_history = [] then ⟨200, 250, 300, none, none⟩
  else
    ⟨intTrunc (percentile 10 price_history),
     intTrunc (percentile 50 price_history),
     intTrunc (percentile 90 price_history),
     some (intTrunc (listMean price_history)),
     some (stdTrunc price_history)⟩

/-- Result record of `decide_recommendation`. -/
structure Recommendation where
  decision : String
  confidence : ℚ
  reason : String
  price_position : String

/-- The first stage of `decide_recommendation` (src/tools.py lines 87-103 and
the `price_position` expression of lines 114-116): the prioritized rule chain
on the price's position in the historical distribution.  `price_position` is
computed in the source by re-testing the same chain conditions at the return
site, so it belongs to this stage and is untouched by the budget override. -/
def rule_chain (current_price : ℚ) (ps : PriceStatistics) (user_budget : ℚ) :
    Recommendation :=
  let q10 : ℚ := ps.q10
  let q50 : ℚ := ps.q50
  let q90 : ℚ := ps.q90
  let pos :=
    if current_price ≤ q10 then "bottom 10%"
    else if current_price ≤ q50 then "below median"
    else if current_price ≤ q90 then "above median"
    else "top 10%"
  if current_price ≤ q10 then
    ⟨"BUY NOW", 9/10,
      "Excellent deal! Current price $" ++ toString current_price ++
        " is in bottom 10% of historical prices.", pos⟩
  else if current_price ≤ q50 then
    ⟨if current_price ≤ user_budget then "BUY" else "WAIT", 7/10,
      "Good price at $" ++ toString current_price ++ ", below median of $" ++
        toString q50 ++ ".", pos⟩
  else if current_price ≤ q90 then
    ⟨"WAIT", 6/10,
      "Price $" ++ toString current_price ++
        " is above median. Consider waiting or flexible dates.", pos⟩
  else
    ⟨"ALTERNATE", 8/10,
      "Price $" ++ toString current_price ++
        " is in top 10%. Try different dates or nearby airports.", pos⟩

/-- The second stage of `decide_recommendation` (src/tools.py lines 105-108):
if the current price exceeds 1.2 times the budget, force the decision to
ALTERNATE and append the budget-overage clause to the reason; confidence and
price position are left as the rule chain produced them. -/
def budget_override (current_price user_budget : ℚ) (r : Recommendation) :
    Recommendation :=
  if current_price > user_budget * (12/10) then
    { r with
        decision := "ALTERNATE"
        reason := r.reason ++ " Significantly over budget of $" ++
          toString user_budget ++ "." }
  else r

/-- `decide_recommendation` from src/tools.py (lines 83-117): the rule chain
followed by the post-hoc budget override. -/
def decide_recommendation (current_price : ℚ) (ps : PriceStatistics)
    (user_budget : ℚ) : Recommendation :=
  budget_override current_price user_budget (rule_chain current_price ps user_budget)

/-- Result record of `predict_future_prices`.  The short-history branch of the
source returns a dict with only `trend` and `confidence`, hence the `Option`
fields. -/
structure TrendPrediction where
  trend : String
  confidence : ℚ
  predicted_prices : Option (List ℚ)
  current_avg : Option ℚ
  future_avg : Option ℚ

/-- Mean of the regressor indices `0, …, n-1` (the mean removed by
`StandardScaler`). -/
def idxMean (n : ℕ) : ℚ := listMean ((List.range n).map (fun (i : ℕ) => (i : ℚ)))

/-- Centered second moment of the regressor indices: `Σ (i - x̄)²`. -/
def sxx (n : ℕ) : ℚ :=
  ((List.range n).map (fun (i : ℕ) => ((i : ℚ) - idxMean n) ^ 2)).sum

/-- Centered cross moment of index and price: `Σ (i - x̄)(yᵢ - ȳ)`. -/
def sxy (hist : List ℚ) : ℚ :=
  ((List.range hist.length).map
    (fun (i : ℕ) =>
      ((i : ℚ) - idxMean hist.length) * (hist.getD i 0 - listMean hist))).sum

/-- Prediction of the fitted linear model at (possibly future) index `t`.
The source standardizes the index (`StandardScaler`, population std `σ`) and
fits `LinearRegression` by least squares on the scaled feature; in exact
arithmetic the scale factor cancels: the scaled slope is `σ·Sxy/Sxx`, the
intercept is `ȳ`, and the prediction at the scaled point `(t - x̄)/σ` is
`ȳ + Sxy/Sxx · (t - x̄)`, which is what this function computes. -/
def olsPredAt (hist : List ℚ) (t : ℚ) : ℚ :=
  listMean hist + sxy hist / sxx hist.length * (t - idxMean hist.length)

/-- The `days_ahead` projected points, at indices `n, …, n + days_ahead - 1`. -/
def projectedPrices (hist : List ℚ) (days_ahead : ℕ) : List ℚ :=
  (List.range days_ahead).map
    (fun (k : ℕ) => olsPredAt hist ((hist.length : ℚ) + k))

/-- Residual sum of squares of the fit on the training data. -/
def ssRes (hist : List ℚ) : ℚ :=
  ((List.range hist.length).map
    (fun (i : ℕ) => (hist.getD i 0 - olsPredAt hist (i : ℚ)) ^ 2)).sum

/-- Total sum of squares of the training data. -/
def ssTot (hist : List ℚ) : ℚ :=
  (hist.map (fun y => (y - listMean hist) ^ 2)).sum

/-- `model.score(X_scaled, y)`: the coefficient of determination
`R² = 1 - ssRes/ssTot`, with sklearn's convention for constant data
(`1` when the residuals also vanish, else `0`). -/
def fitScore (hist : List ℚ) : ℚ :=
  if ssTot hist = 0 then (if ssRes hist = 0 then 1 else 0)
  else 1 - ssRes hist / ssTot hist

/-- `np.mean(historical_prices[-7:])`: mean of the trailing (up to) 7 values. -/
def currentAvg (hist : List ℚ) : ℚ := listMean (hist.drop (hist.length - 7))

/-- `predict_future_prices` from src/real_data_service.py (lines 263-304):
short histories get the fixed `{trend: "stable", confidence: 0.5}`; otherwise
a linear model over the standardized index is fitted, `days_ahead` points are
projected, and the trend is classified by comparing the projected mean with
the mean of the last 7 historical values. -/
def predict_future_prices (hist : List ℚ) (days_ahead : ℕ) : TrendPrediction :=
  if hist.length < 10 then ⟨"stable", 1/2, none, none, none⟩
  else
    let future_prices := projectedPrices hist days_ahead
    let current_avg := currentAvg hist
    let future_avg := listMean future_prices
    if future_avg > current_avg * (105/100) then
      ⟨"increasing", min (8/10) |fitScore hist|, some future_prices,
        some current_avg, some future_avg⟩
    else if future_avg < current_avg * (95/100) then
      ⟨"decreasing", min (8/10) |fitScore hist|, some future_prices,
        some current_avg, some future_avg⟩
    else
      ⟨"stable", 6/10, some future_prices, some current_avg, some future_avg⟩

/-- `predict_price_range` with its one fallible step made explicit: numpy
raises on percentile/mean of an empty array, which the source guards with the
`if not price_history` early return.  The guard is re-checked here as an
explicit error branch. -/
def predict_price_rangeE (l : List ℚ) : Except String PriceStatistics :=
  if l = [] then .ok ⟨200, 250, 300, none, none⟩
  else if l.length = 0 then .error "percentile of empty array"
  else .ok (predict_price_range l)

/-- `decide_recommendation` performs only comparisons, record construction and
string formatting, none of which can raise; its `Except` form is trivially
total. -/
def decide_recommendationE (p : ℚ) (ps : PriceStatistics) (b : ℚ) :
    Except String Recommendation :=
  .ok (decide_recommendation p ps b)

/-- `predict_future_prices` with its fallible numeric step made explicit: the
least-squares slope divides by the centered second moment of the index, which
degenerates exactly when `Σ (i - x̄)² = 0`. -/
def predict_future_pricesE (hist : List ℚ) (days_ahead : ℕ) :
    Except String TrendPrediction :=
  if hist.length < 10 then .ok ⟨"stable", 1/2, none, none, none⟩
  else if sxx hist.length = 0 then .error "degenerate fit"
  else .ok (predict_future_prices hist days_ahead)

/-- C5: the summarizer applied to the empty history returns exactly the fixed
default `{q10:200, q50:250, q90:300}`, with no mean and no std fields present;
being a constant, it does not depend on any data. -/
theorem empty_history_default :
    predict_price_range [] = ⟨200, 250, 300, none, none⟩ := rfl

/-- C7: for every history with fewer than 10 elements, the trend predictor
returns exactly `{trend: "stable", confidence: 0.5}` with no projected price
series, no current_avg and no future_avg. -/
theorem short_history_prediction (hist : List ℚ) (h : hist.length < 10) :
    predict_future_prices hist 7 = ⟨"stable", 1/2, none, none, none⟩ := by
  simp [predict_future_prices, h]

theorem short_history_prediction_witness :
    predict_future_prices [(100:ℚ), 200, 300] 7 =
      ⟨"stable", 1/2, none, none, none⟩ :=
  short_history_prediction [(100:ℚ), 200, 300] (by norm_num)

/-- C1: `decide_recommendation` is the budget override applied to a
prioritized rule chain, whose rules fire in this exact order with inclusive
boundaries: price ≤ q10 gives BUY NOW at confidence 0.90 in position
"bottom 10%"; else price ≤ q50 gives position "below median" with BUY when
price ≤ budget and WAIT otherwise at confidence 0.70; else price ≤ q90 gives
WAIT at confidence 0.60 in position "above median"; otherwise ALTERNATE at
confidence 0.80 in position "top 10%".  Confidence and position reach the
final result unchanged (the override only touches decision and reason). -/
theorem rule_chain_spec (p : ℚ) (ps : PriceStatistics) (b : ℚ) :
    decide_recommendation p ps b = budget_override p b (rule_chain p ps b) ∧
    (p ≤ (ps.q10 : ℚ) →
      (rule_chain p ps b).decision = "BUY NOW" ∧
      (decide_recommendation p ps b).confidence = 9/10 ∧
      (decide_recommendation p ps b).price_position = "bottom 10%") ∧
    (¬ p ≤ (ps.q10 : ℚ) → p ≤ (ps.q50 : ℚ) →
      ((rule_chain p ps b).decision = if p ≤ b then "BUY" else "WAIT") ∧
      (decide_recommendation p ps b).confidence = 7/10 ∧
      (decide_recommendation p ps b).price_position = "below median") ∧
    (¬ p ≤ (ps.q10 : ℚ) → ¬ p ≤ (ps.q50 : ℚ) → p ≤ (ps.q90 : ℚ) →
      (rule_chain p ps b).decision = "WAIT" ∧
      (decide_recommendation p ps b).confidence = 6/10 ∧
      (decide_recommendation p ps b).price_position = "above median") ∧
    (¬ p ≤ (ps.q10 : ℚ) → ¬ p ≤ (ps.q50 : ℚ) → ¬ p ≤ (ps.q90 : ℚ) →
      (rule_chain p ps b).decision = "ALTERNATE" ∧
      (decide_recommendation p ps b).confidence = 8/10 ∧
      (decide_recommendation p ps b).price_position = "top 10%") := by
  refine ⟨rfl, ?_, ?_, ?_, ?_⟩
  · intro h1
    unfold decide_recommendation budget_override rule_chain
    by_cases hov : b * (12/10) < p <;> simp [h1, hov]
  · intro h1 h2
    unfold decide_recommendation budget_override rule_chain
    by_cases hov : b * (12/10) < p <;> by_cases hb : p ≤ b <;>
      simp [h1, h2, hb, hov]
  · intro h1 h2 h3
    unfold decide_recommendation budget_override rule_chain
    by_cases hov : b * (12/10) < p <;> simp [h1, h2, h3, hov]
  · intro h1 h2 h3
    unfold decide_recommendation budget_override rule_chain
    by_cases hov : b * (12/10) < p <;> simp [h1, h2, h3, hov]

theorem rule_chain_spec_witness :
    (rule_chain 100 ⟨100, 200, 300, none, none⟩ 500).decision = "BUY NOW" ∧
    (decide_recommendation 100 ⟨100, 200, 300, none, none⟩ 500).confidence = 9/10 ∧
    (decide_recommendation 100 ⟨100, 200, 300, none, none⟩ 500).price_position =
      "bottom 10%" :=
  (rule_chain_spec 100 ⟨100, 200, 300, none, none⟩ 500).2.1 (by norm_num)

/-- C2: whenever the current price exceeds 1.2 times the budget, the final
decision is forced to ALTERNATE regardless of the rule-chain outcome, the
budget-overage clause is appended to the reason, and the confidence and price
position of the rule chain are retained; otherwise the rule-chain outcome is
returned unmodified. -/
theorem budget_override_spec (p : ℚ) (ps : PriceStatistics) (b : ℚ) :
    (p > b * (12/10) →
      (decide_recommendation p ps b).decision = "ALTERNATE" ∧
      (decide_recommendation p ps b).confidence = (rule_chain p ps b).confidence ∧
      (decide_recommendation p ps b).price_position =
        (rule_chain p ps b).price_position ∧
      (decide_recommendation p ps b).reason =
        (rule_chain p ps b).reason ++ " Significantly over budget of $" ++
          toString b ++ ".") ∧
    (¬ p > b * (12/10) → decide_recommendation p ps b = rule_chain p ps b) := by
  unfold decide_recommendation budget_override
  constructor <;> intro h <;> simp [h]

theorem budget_override_spec_witness :
    (decide_recommendation 250 ⟨100, 200, 300, none, none⟩ 100).decision =
      "ALTERNATE" :=
  ((budget_override_spec 250 ⟨100, 200, 300, none, none⟩ 100).1 (by norm_num)).1

/-- C10: when the current price is at most q10 and at most 1.2 times the
budget, the final decision is BUY NOW at confidence 0.90 — in particular even
when the price exceeds the budget itself, since the budget can only force
ALTERNATE above 1.2 times the budget. -/
theorem buy_now_within_budget_slack (p : ℚ) (ps : PriceStatistics) (b : ℚ)
    (h1 : p ≤ (ps.q10 : ℚ)) (h2 : p ≤ b * (12/10)) :
    (decide_recommendation p ps b).decision = "BUY NOW" ∧
    (decide_recommendation p ps b).confidence = 9/10 := by
  unfold decide_recommendation budget_override rule_chain
  simp [h1, not_lt.mpr h2]

theorem buy_now_within_budget_slack_witness :
    (110:ℚ) > 100 ∧
    (decide_recommendation 110 ⟨120, 200, 300, none, none⟩ 100).decision =
      "BUY NOW" ∧
    (decide_recommendation 110 ⟨120, 200, 300, none, none⟩ 100).confidence =
      9/10 :=
  ⟨by norm_num,
    (buy_now_within_budget_slack 110 ⟨120, 200, 300, none, none⟩ 100
      (by norm_num) (by norm_num)).1,
    (buy_now_within_budget_slack 110 ⟨120, 200, 300, none, none⟩ 100
      (by norm_num) (by norm_num)).2⟩

lemma sum_range_cast (n : ℕ) :
    ((List.range n).map (fun (i : ℕ) => (i : ℚ))).sum = n * (n - 1) / 2 := by
  induction n with
  | zero => simp
  | succ m ih =>
    rw [List.range_succ, List.map_append, List.sum_append, ih]
    simp only [List.map_cons, List.map_nil, List.sum_cons, List.sum_nil, add_zero]
    push_cast
    ring

lemma idxMean_eq (n : ℕ) (hn : n ≠ 0) : idxMean n = ((n : ℚ) - 1) / 2 := by
  have hq : (n : ℚ) ≠ 0 := Nat.cast_ne_zero.mpr hn
  unfold idxMean listMean
  rw [sum_range_cast, List.length_map, List.length_range]
  field_simp
  ring

lemma sxx_pos (n : ℕ) (hn : 2 ≤ n) : 0 < sxx n := by
  have hmem : (((0:ℕ) : ℚ) - idxMean n) ^ 2 ∈
      (List.range n).map (fun (i : ℕ) => ((i : ℚ) - idxMean n) ^ 2) :=
    List.mem_map_of_mem _ (List.mem_range.mpr (by omega))
  have hpos : 0 < (((0:ℕ) : ℚ) - idxMean n) ^ 2 := by
    rw [idxMean_eq n (by omega)]
    have h2 : (2:ℚ) ≤ (n : ℚ) := by exact_mod_cast hn
    have hhalf : (0:ℚ) < ((n : ℚ) - 1) / 2 := by linarith
    simpa using pow_pos (by simpa using hhalf) 2
  have hle :=
    List.single_le_sum
      (fun x hx => by
        rcases List.mem_map.mp hx with ⟨i, _, rfl⟩
        positivity)
      _ hmem
  unfold sxx
  exact lt_of_lt_of_le hpos hle

/-- C8: the three core functions are total over well-formed numeric inputs.
Each `Except`-valued variant marks where the underlying numeric pipeline could
fail (percentile of an empty array, a degenerate zero-variance regressor), and
each is proved to return `ok` on every input — so no internal numerical
failure is reachable and the fall-back clause of the spec is never needed. -/
theorem core_totality (l hist : List ℚ) (p b : ℚ) (ps : PriceStatistics) :
    predict_price_rangeE l = Except.ok (predict_price_range l) ∧
    decide_recommendationE p ps b = Except.ok (decide_recommendation p ps b) ∧
    predict_future_pricesE hist 7 = Except.ok (predict_future_prices hist 7) := by
  refine ⟨?_, rfl, ?_⟩
  · unfold predict_price_rangeE
    by_cases h : l = []
    · simp [h, predict_price_range]
    · have hne : l.length ≠ 0 := by simpa [List.length_eq_zero] using h
      simp [h, hne]
  · unfold predict_future_pricesE
    by_cases h : hist.length < 10
    · simp [h, predict_future_prices]
    · have hsxx : sxx hist.length ≠ 0 := ne_of_gt (sxx_pos _ (by omega))
      simp [h, hsxx]

lemma intTrunc_intCast (k : ℤ) : intTrunc (k : ℚ) = k := by
  unfold intTrunc
  split_ifs <;> simp

lemma percentile_single (p v : ℚ) : percentile p [v] = v := by
  unfold percentile rankOf interpAt sortQ
  norm_num [List.insertionSort, List.orderedInsert, List.getD_cons_zero,
    List.getD_cons_succ, List.getD_nil]

lemma listMean_single (v : ℚ) : listMean [v] = v := by
  simp [listMean]

lemma popVar_single (v : ℚ) : popVar [v] = 0 := by
  simp [popVar, listMean]

/-- C9 counterexample: the summarizer applied to the single-element history
[7.5] yields q10 = 7, not the element itself — the integer truncation makes
the claimed equality fail for non-integer prices. -/
theorem single_element_counterexample :
    ¬ (((predict_price_range [(15:ℚ)/2]).q10 : ℚ) = (15:ℚ)/2) := by
  have h : (predict_price_range [(15:ℚ)/2]).q10 = 7 := by
    norm_num [predict_price_range, percentile_single, intTrunc]
  rw [h]
  norm_num

/-- C9 amended: a single-element history [v] yields
q10 = q50 = q90 = mean = trunc(v) and std = 0; when the element is an integer
(as in summarize([100])) these all equal the element itself. -/
theorem single_element_summary :
    (∀ v : ℚ, predict_price_range [v] =
      ⟨intTrunc v, intTrunc v, intTrunc v, some (intTrunc v), some 0⟩) ∧
    (∀ k : ℤ, predict_price_range [(k : ℚ)] =
      ⟨k, k, k, some k, some 0⟩) := by
  have hmain : ∀ v : ℚ, predict_price_range [v] =
      ⟨intTrunc v, intTrunc v, intTrunc v, some (intTrunc v), some 0⟩ := by
    intro v
    simp [predict_price_range, percentile_single, listMean_single, stdTrunc,
      popVar_single, Nat.sqrt_zero]
  refine ⟨hmain, fun k => ?_⟩
  rw [hmain (k : ℚ), intTrunc_intCast]

lemma sortQ_sorted (l : List ℚ) : List.Sorted (· ≤ ·) (sortQ l) :=
  List.sorted_insertionSort _ l

lemma sortQ_perm (l : List ℚ) : (sortQ l).Perm l :=
  List.perm_insertionSort _ l

lemma popVar_nonneg (l : List ℚ) : 0 ≤ popVar l := by
  unfold popVar
  apply div_nonneg
  · apply List.sum_nonneg
    intro x hx
    rcases List.mem_map.mp hx with ⟨y, _, rfl⟩
    positivity
  · positivity

lemma stdTrunc_spec (l : List ℚ) :
    0 ≤ stdTrunc l ∧ ((stdTrunc l : ℚ)) ^ 2 ≤ popVar l ∧
      popVar l < ((stdTrunc l : ℚ) + 1) ^ 2 := by
  have hv : 0 ≤ popVar l := popVar_nonneg l
  have hfl : 0 ≤ ⌊popVar l⌋ := Int.floor_nonneg.mpr hv
  unfold stdTrunc
  have hmz : ((⌊popVar l⌋).toNat : ℤ) = ⌊popVar l⌋ := Int.toNat_of_nonneg hfl
  have hmq : (((⌊popVar l⌋).toNat : ℕ) : ℚ) ≤ popVar l := by
    have hq := Int.floor_le (popVar l)
    rw [← hmz] at hq
    exact_mod_cast hq
  have hlt : popVar l < (((⌊popVar l⌋).toNat : ℕ) : ℚ) + 1 := by
    have hq := Int.lt_floor_add_one (popVar l)
    rw [← hmz] at hq
    exact_mod_cast hq
  have h1 : (Nat.sqrt (⌊popVar l⌋).toNat) ^ 2 ≤ (⌊popVar l⌋).toNat :=
    Nat.sqrt_le' _
  have h2 : (⌊popVar l⌋).toNat < (Nat.sqrt (⌊popVar l⌋).toNat + 1) ^ 2 :=
    Nat.lt_succ_sqrt' _
  refine ⟨by positivity, ?_, ?_⟩
  · have h1q : ((Nat.sqrt (⌊popVar l⌋).toNat : ℚ)) ^ 2 ≤
        (((⌊popVar l⌋).toNat : ℕ) : ℚ) := by exact_mod_cast h1
    push_cast
    linarith
  · have h2q : (((⌊popVar l⌋).toNat : ℕ) : ℚ) + 1 ≤
        ((Nat.sqrt (⌊popVar l⌋).toNat : ℚ) + 1) ^ 2 := by exact_mod_cast h2
    push_cast
    push_cast at h2q
    linarith

/-- C3: for every non-empty history of non-negative prices, the summarizer's
q10/q50/q90 are the 10th/50th/90th percentiles obtained by linear
interpolation at fractional rank p/100*(n-1) between the order statistics of a
sorted permutation of the input, its mean is the arithmetic mean, and its std
is the population standard deviation — all truncated toward zero to integers
(the std clause characterizes trunc(√variance) by squaring, avoiding
irrational intermediates). -/
theorem summarizer_statistics (l : List ℚ) (hne : l ≠ [])
    (hpos : ∀ x ∈ l, 0 ≤ x) :
    List.Sorted (· ≤ ·) (sortQ l) ∧ (sortQ l).Perm l ∧
    (predict_price_range l).q10 =
      intTrunc (interpAt (sortQ l) (10 / 100 * ((l.length : ℚ) - 1))) ∧
    (predict_price_range l).q50 =
      intTrunc (interpAt (sortQ l) (50 / 100 * ((l.length : ℚ) - 1))) ∧
    (predict_price_range l).q90 =
      intTrunc (interpAt (sortQ l) (90 / 100 * ((l.length : ℚ) - 1))) ∧
    (predict_price_range l).mean =
      some (intTrunc (l.sum / l.length)) ∧
    ∃ s : ℤ, (predict_price_range l).std = some s ∧ 0 ≤ s ∧
      (s : ℚ) ^ 2 ≤ (l.map (fun x => (x - l.sum / l.length) ^ 2)).sum / l.length ∧
      (l.map (fun x => (x - l.sum / l.length) ^ 2)).sum / l.length <
        ((s : ℚ) + 1) ^ 2 := by
  have hstd := stdTrunc_spec l
  have hpv : popVar l =
      (l.map (fun x => (x - l.sum / l.length) ^ 2)).sum / l.length := by
    simp [popVar, listMean]
  rw [hpv] at hstd
  refine ⟨sortQ_sorted l, sortQ_perm l, ?_, ?_, ?_, ?_,
    ⟨stdTrunc l, ?_, hstd.1, hstd.2.1, hstd.2.2⟩⟩ <;>
    simp [predict_price_range, hne, percentile, rankOf, listMean]

theorem summarizer_statistics_witness :
    (predict_price_range [(100:ℚ), 200]).q10 =
      intTrunc (interpAt (sortQ [(100:ℚ), 200])
        (10 / 100 * (([(100:ℚ), 200].length : ℚ) - 1))) ∧
    (predict_price_range [(100:ℚ), 200]).q10 = 110 := by
  have h := summarizer_statistics [(100:ℚ), 200] (by simp) (by norm_num)
  refine ⟨h.2.2.1, ?_⟩
  rw [h.2.2.1]
  norm_num [sortQ, List.insertionSort, List.orderedInsert, interpAt, intTrunc,
    List.getD_cons_zero, List.getD_cons_succ]

lemma getD_mono_of_sorted {s : List ℚ} (hs : List.Sorted (· ≤ ·) s)
    {i j : ℕ} (hij : i ≤ j) (hj : j < s.length) :
    s.getD i 0 ≤ s.getD j 0 := by
  have hi : i < s.length := lt_of_le_of_lt hij hj
  rw [List.getD_eq_getElem s 0 hi, List.getD_eq_getElem s 0 hj]
  rcases Nat.lt_or_ge i j with hlt | hge
  · have h2 := hs.rel_get_of_lt
      (show (⟨i, hi⟩ : Fin s.length) < ⟨j, hj⟩ from hlt)
    simpa [List.get_eq_getElem] using h2
  · have hij2 : i = j := le_antisymm hij hge
    subst hij2
    exact le_refl _

lemma lo_le_hi {s : List ℚ} (hs : List.Sorted (· ≤ ·) s) (i : ℕ) :
    s.getD i 0 ≤ s.getD (i + 1) (s.getD i 0) := by
  by_cases h : i + 1 < s.length
  · have hi : i < s.length := by omega
    rw [List.getD_eq_getElem s _ h, List.getD_eq_getElem s 0 hi]
    have h2 := hs.rel_get_of_lt
      (show (⟨i, hi⟩ : Fin s.length) < ⟨i + 1, h⟩ from by
        simp [Fin.lt_def])
    simpa [List.get_eq_getElem] using h2
  · have hlen : s.length ≤ i + 1 := by omega
    rw [List.getD_eq_default s (s.getD i 0) hlen]

lemma interpAt_lower {s : List ℚ} (hs : List.Sorted (· ≤ ·) s) {a : ℚ}
    (ha : 0 ≤ a) :
    s.getD (⌊a⌋).toNat 0 ≤ interpAt s a := by
  simp only [interpAt]
  have hf0 : 0 ≤ a - ⌊a⌋ := by
    have := Int.floor_le a
    linarith
  have hlh := lo_le_hi hs (⌊a⌋).toNat
  nlinarith [mul_nonneg hf0 (sub_nonneg.mpr hlh)]

lemma interpAt_upper {s : List ℚ} (hs : List.Sorted (· ≤ ·) s) {a : ℚ}
    (ha : 0 ≤ a) :
    interpAt s a ≤ s.getD ((⌊a⌋).toNat + 1) (s.getD (⌊a⌋).toNat 0) := by
  simp only [interpAt]
  have hf1 : a - ⌊a⌋ ≤ 1 := by
    have := Int.lt_floor_add_one a
    linarith
  have hlh := lo_le_hi hs (⌊a⌋).toNat
  nlinarith [mul_nonneg (sub_nonneg.mpr hf1) (sub_nonneg.mpr hlh)]

lemma interpAt_mono {s : List ℚ} (hs : List.Sorted (· ≤ ·) s) {a b : ℚ}
    (ha : 0 ≤ a) (hab : a ≤ b) (hb : b ≤ (s.length : ℚ) - 1) :
    interpAt s a ≤ interpAt s b := by
  have hb0 : 0 ≤ b := le_trans ha hab
  have hfab : ⌊a⌋ ≤ ⌊b⌋ := Int.floor_le_floor hab
  have hfa0 : 0 ≤ ⌊a⌋ := Int.floor_nonneg.mpr ha
  have hfb0 : 0 ≤ ⌊b⌋ := Int.floor_nonneg.mpr hb0
  have hn1 : 1 ≤ s.length := by
    by_contra hcon
    have h0 : s.length = 0 := by omega
    rw [h0] at hb
    push_cast at hb
    linarith
  have hfbn : ⌊b⌋ ≤ (s.length : ℤ) - 1 := by
    have hb2 : ⌊b⌋ ≤ ⌊(s.length : ℚ) - 1⌋ := Int.floor_le_floor hb
    rwa [show ((s.length : ℚ) - 1) = (((s.length : ℤ) - 1 : ℤ) : ℚ) by
      push_cast; ring, Int.floor_intCast] at hb2
  rcases eq_or_lt_of_le hfab with heq | hlt
  · simp only [interpAt, heq]
    have hlh := lo_le_hi hs (⌊b⌋).toNat
    nlinarith [mul_nonneg (sub_nonneg.mpr hab) (sub_nonneg.mpr hlh)]
  · have hia : (⌊a⌋).toNat + 1 ≤ (⌊b⌋).toNat := by omega
    have hjb : (⌊b⌋).toNat < s.length := by omega
    have hi1n : (⌊a⌋).toNat + 1 < s.length := by omega
    have hdef : s.getD ((⌊a⌋).toNat + 1) (s.getD (⌊a⌋).toNat 0) =
        s.getD ((⌊a⌋).toNat + 1) 0 := by
      rw [List.getD_eq_getElem s _ hi1n, List.getD_eq_getElem s 0 hi1n]
    calc interpAt s a
        ≤ s.getD ((⌊a⌋).toNat + 1) (s.getD (⌊a⌋).toNat 0) :=
          interpAt_upper hs ha
      _ = s.getD ((⌊a⌋).toNat + 1) 0 := hdef
      _ ≤ s.getD ((⌊b⌋).toNat) 0 := getD_mono_of_sorted hs hia hjb
      _ ≤ interpAt s b := interpAt_lower hs hb0

lemma percentile_mono {l : List ℚ} (hne : l ≠ []) {p q : ℚ}
    (hp0 : 0 ≤ p) (hpq : p ≤ q) (hq : q ≤ 100) :
    percentile p l ≤ percentile q l := by
  have hn : 1 ≤ l.length := List.length_pos.mpr hne
  have hlen : (sortQ l).length = l.length := (sortQ_perm l).length_eq
  have hn1 : (0:ℚ) ≤ (l.length : ℚ) - 1 := by
    have hc : (1:ℚ) ≤ (l.length : ℚ) := by exact_mod_cast hn
    linarith
  unfold percentile rankOf
  apply interpAt_mono (sortQ_sorted l)
  · exact mul_nonneg (div_nonneg hp0 (by norm_num)) hn1
  · exact mul_le_mul_of_nonneg_right (by linarith) hn1
  · rw [hlen]
    calc q / 100 * ((l.length : ℚ) - 1)
        ≤ 1 * ((l.length : ℚ) - 1) :=
          mul_le_mul_of_nonneg_right (by linarith) hn1
      _ = (l.length : ℚ) - 1 := one_mul _

lemma intTrunc_mono {a b : ℚ} (hab : a ≤ b) : intTrunc a ≤ intTrunc b := by
  unfold intTrunc
  split_ifs with h1 h2 h2
  · exact Int.floor_le_floor hab
  · exact absurd (le_trans h1 hab) h2
  · have hc : ⌈a⌉ ≤ (0:ℤ) := Int.ceil_le.mpr (by
      push_cast
      exact le_of_not_le h1)
    have hf : (0:ℤ) ≤ ⌊b⌋ := Int.floor_nonneg.mpr h2
    omega
  · exact Int.ceil_le_ceil hab

/-- C4: for every non-empty history the summary satisfies q10 ≤ q50 ≤ q90:
the linear-interpolation percentile is monotone in the percentile level over a
sorted list, and truncation toward zero is monotone, so the ordering survives
both steps. -/
theorem quantile_ordering (l : List ℚ) (hne : l ≠ []) :
    (predict_price_range l).q10 ≤ (predict_price_range l).q50 ∧
    (predict_price_range l).q50 ≤ (predict_price_range l).q90 := by
  have h1 : percentile 10 l ≤ percentile 50 l :=
    percentile_mono hne (by norm_num) (by norm_num) (by norm_num)
  have h2 : percentile 50 l ≤ percentile 90 l :=
    percentile_mono hne (by norm_num) (by norm_num) (by norm_num)
  simp only [predict_price_range, if_neg hne]
  exact ⟨intTrunc_mono h1, intTrunc_mono h2⟩

theorem quantile_ordering_witness :
    (predict_price_range [(300:ℚ), 100, 200]).q10 ≤
      (predict_price_range [(300:ℚ), 100, 200]).q50 ∧
    (predict_price_range [(300:ℚ), 100, 200]).q50 ≤
      (predict_price_range [(300:ℚ), 100, 200]).q90 :=
  quantile_ordering [(300:ℚ), 100, 200] (by simp)

/-- C6: for every history with at least 10 elements, the prediction carries
the full projected sequence, current_avg = mean of the last 7 historical
values and future_avg = mean of the projected points, and classifies the
trend by the prioritized rules of the source: increasing when
future_avg > current_avg * 1.05 (confidence min(0.8, |R²|)), else decreasing
when future_avg < current_avg * 0.95 (confidence min(0.8, |R²|)), else stable
(confidence 0.6). -/
theorem trend_predictor_rules (hist : List ℚ) (hlen : 10 ≤ hist.length) :
    (hist.drop (hist.length - 7)).length = 7 ∧
    (predict_future_prices hist 7).predicted_prices =
      some (projectedPrices hist 7) ∧
    (predict_future_prices hist 7).current_avg =
      some (listMean (hist.drop (hist.length - 7))) ∧
    (predict_future_prices hist 7).future_avg =
      some (listMean (projectedPrices hist 7)) ∧
    (listMean (projectedPrices hist 7) >
        listMean (hist.drop (hist.length - 7)) * (105/100) →
      (predict_future_prices hist 7).trend = "increasing" ∧
      (predict_future_prices hist 7).confidence = min (8/10) |fitScore hist|) ∧
    (¬ listMean (projectedPrices hist 7) >
        listMean (hist.drop (hist.length - 7)) * (105/100) →
      listMean (projectedPrices hist 7) <
        listMean (hist.drop (hist.length - 7)) * (95/100) →
      (predict_future_prices hist 7).trend = "decreasing" ∧
      (predict_future_prices hist 7).confidence = min (8/10) |fitScore hist|) ∧
    (¬ listMean (projectedPrices hist 7) >
        listMean (hist.drop (hist.length - 7)) * (105/100) →
      ¬ listMean (projectedPrices hist 7) <
        listMean (hist.drop (hist.length - 7)) * (95/100) →
      (predict_future_prices hist 7).trend = "stable" ∧
      (predict_future_prices hist 7).confidence = 6/10) := by
  have hnot : ¬ hist.length < 10 := by omega
  have hdrop : (hist.drop (hist.length - 7)).length = 7 := by
    rw [List.length_drop]
    omega
  refine ⟨hdrop, ?_, ?_, ?_, ?_, ?_, ?_⟩
  · simp only [predict_future_prices, if_neg hnot]
    split_ifs <;> rfl
  · simp only [predict_future_prices, if_neg hnot, currentAvg]
    split_ifs <;> rfl
  · simp only [predict_future_prices, if_neg hnot]
    split_ifs <;> rfl
  · intro h1
    simp only [predict_future_prices, if_neg hnot, currentAvg]
    rw [if_pos h1]
    exact ⟨rfl, rfl⟩
  · intro h1 h2
    simp only [predict_future_prices, if_neg hnot, currentAvg]
    rw [if_neg h1, if_pos h2]
    exact ⟨rfl, rfl⟩
  · intro h1 h2
    simp only [predict_future_prices, if_neg hnot, currentAvg]
    rw [if_neg h1, if_neg h2]
    exact ⟨rfl, rfl⟩

theorem trend_predictor_rules_witness :
    (predict_future_prices [(1:ℚ), 2, 3, 4, 5, 6, 7, 8, 9, 10] 7).trend =
      "increasing" ∧
    (predict_future_prices [(1:ℚ), 2, 3, 4, 5, 6, 7, 8, 9, 10] 7).confidence =
      4/5 := by
  have hr10 : List.range 10 = [0, 1, 2, 3, 4, 5, 6, 7, 8, 9] := rfl
  have hr7 : List.range 7 = [0, 1, 2, 3, 4, 5, 6] := rfl
  have h := (trend_predictor_rules [(1:ℚ), 2, 3, 4, 5, 6, 7, 8, 9, 10]
    (by norm_num)).2.2.2.2.1
  have hcond : listMean (projectedPrices [(1:ℚ), 2, 3, 4, 5, 6, 7, 8, 9, 10] 7) >
      listMean ([(1:ℚ), 2, 3, 4, 5, 6, 7, 8, 9, 10].drop
        ([(1:ℚ), 2, 3, 4, 5, 6, 7, 8, 9, 10].length - 7)) * (105/100) := by
    norm_num [projectedPrices, olsPredAt, sxy, sxx, idxMean, listMean, hr10,
      hr7, List.getD_cons_zero, List.getD_cons_succ]
  obtain ⟨ht, hc⟩ := h hcond
  refine ⟨ht, ?_⟩
  rw [hc]
  norm_num [fitScore, ssRes, ssTot, olsPredAt, sxy, sxx, idxMean, listMean,
    hr10, List.getD_cons_zero, List.getD_cons_succ, min_def, abs_of_nonneg]

end OwlWays
